import Mathlib

/-!
Verification of the counter-persistence engine
(counter.go, persistence.go, service.go, fileutils).

The Go sources are shallowly embedded: machine `int64`/`uint32` arithmetic is
modelled on `Int`/`Nat` with explicit reduction modulo `2^64`/`2^32`, file
contents are `List Char` (every byte written or read by this program is ASCII,
where Go's UTF-8 bytes coincide with the character codes), and fallible
operations return `Option`/`Except`.  I/O failures are injected through
explicit environment records so that every control path of the source is
reachable in the model.
-/

namespace CounterService

/-! ## int64 arithmetic (Go `atomic.Int64` wraps on overflow) -/

def int64Min : Int := -(2 ^ 63)

def int64Max : Int := 2 ^ 63 - 1

/-- Two's-complement wraparound of an integer into the signed 64-bit range,
the semantics of Go's `atomic.Int64.Add`. -/
def wrap64 (x : Int) : Int := (x + 2 ^ 63) % 2 ^ 64 - 2 ^ 63

/-! ## Counter (counter.go)

`Counter` holds `Visits`, `lastSaved` and `dirty` (all hardware-atomic in the
source; modelled as plain fields with interleavings made explicit where a
claim is about a race). -/

structure Counter where
  visits : Int
  lastSaved : Int
  dirty : Bool
deriving Repr, DecidableEq

/-- Model of `NewCounter`: stores the initial value into `Visits` and
`lastSaved`; `dirty` starts false (Go zero value). -/
def NewCounter (initialValue : Int) : Counter :=
  { visits := initialValue, lastSaved := initialValue, dirty := false }

/-- Model of `(*Counter).Increment`: `Visits.Add(1)` (wrapping int64), then
`dirty.Store(true)`; returns the updated counter and the new value. -/
def Counter.Increment (c : Counter) : Counter × Int :=
  let newValue := wrap64 (c.visits + 1)
  ({ c with visits := newValue, dirty := true }, newValue)

/-- Model of `(*Counter).GetValue`. -/
def Counter.GetValue (c : Counter) : Int := c.visits

/-- Model of `(*Counter).IsDirty`. -/
def Counter.IsDirty (c : Counter) : Bool := c.dirty

/-- Model of `(*Counter).MarkClean`: `lastSaved.Store(Visits.Load())` then
`dirty.Store(false)` — unconditionally, whatever the current value is. -/
def Counter.MarkClean (c : Counter) : Counter :=
  { c with lastSaved := c.visits, dirty := false }

/-- A sequence of `n` Increment calls (the state after; return values are
recoverable from the state). -/
def incrementN (c : Counter) : Nat → Counter
  | 0 => c
  | n + 1 => ((incrementN c n).Increment).1

def inInt64Range (x : Int) : Prop := int64Min ≤ x ∧ x ≤ int64Max

instance (x : Int) : Decidable (inInt64Range x) := by
  unfold inInt64Range; infer_instance

/-! ## Checksum (fileutils.CalculateCRC)

`crc = crc*31 + uint32(b)` over the bytes, seeded at 0, in wrapping `uint32`
arithmetic. -/

/-- Model of `fileutils.CalculateCRC` (file bytes as ASCII chars). -/
def CalculateCRC (data : List Char) : Nat :=
  data.foldl (fun crc b => (crc * 31 + b.toNat) % 2 ^ 32) 0

/-! ## One physical save attempt (persistence.go `writeCounterToDisk`)

The source opens `Filename + ".tmp"`, flocks it exclusively, writes, syncs,
closes and renames over the target.  The deferred cleanup reads the OUTER
`err` variable, but the flock failure (`if err := syscall.Flock(...)`) and the
rename failure (`if err := os.Rename(...)`) assign a SHADOWED `err`, so on
those two failures the outer `err` is still nil and the deferred
`os.Remove(tempFile)` does not run: the temp file is left behind.  Write and
Sync failures assign the outer `err` and do remove the temp file.  Every
failure path returns a non-nil error to the caller. -/

structure WriteEnv where
  openFails : Bool
  lockFails : Bool
  writeFails : Bool
  syncFails : Bool
  renameFails : Bool
deriving Repr, DecidableEq

inductive WriteErr where
  | openE | lockE | writeE | syncE | renameE
deriving Repr, DecidableEq

structure WriteOutcome where
  /-- `none` means the attempt returned nil (success). -/
  result : Option WriteErr
  /-- the temp file was created by this attempt -/
  tempCreated : Bool
  /-- the temp file still exists after the attempt returns (on success it was
  renamed onto the target, so it no longer exists under the temp name) -/
  tempExistsAfter : Bool
  /-- the target file was atomically replaced -/
  renamedToTarget : Bool
deriving Repr, DecidableEq

/-- Model of `writeCounterToDisk` with each fallible step's outcome injected
via `WriteEnv`; see the section comment for the err-shadowing behaviour. -/
def writeCounterToDisk (e : WriteEnv) : WriteOutcome :=
  if e.openFails then
    { result := some .openE, tempCreated := false, tempExistsAfter := false,
      renamedToTarget := false }
  else if e.lockFails then
    -- shadowed err: deferred cleanup sees outer err == nil, temp file kept
    { result := some .lockE, tempCreated := true, tempExistsAfter := true,
      renamedToTarget := false }
  else if e.writeFails then
    -- outer err set: deferred cleanup removes the temp file
    { result := some .writeE, tempCreated := true, tempExistsAfter := false,
      renamedToTarget := false }
  else if e.syncFails then
    { result := some .syncE, tempCreated := true, tempExistsAfter := false,
      renamedToTarget := false }
  else if e.renameFails then
    -- shadowed err again: temp file kept
    { result := some .renameE, tempCreated := true, tempExistsAfter := true,
      renamedToTarget := false }
  else
    { result := none, tempCreated := true, tempExistsAfter := false,
      renamedToTarget := true }

def WriteOutcome.ok (o : WriteOutcome) : Bool := o.result.isNone

/-! ## Serialization (persistence.go `CounterData` / `json.MarshalIndent`)

`CounterData` carries `visits` (int64), `last_updated` (a `time.Time`,
modelled as its rendered RFC3339 string — Go formats the time on marshal and
re-parses it on unmarshal; the model keeps the string form), `version`, and
`crc` (uint32, tagged `omitempty`, so a zero crc is omitted from the JSON).

`json.MarshalIndent(data, "", "  ")` deterministically yields the struct
fields in declaration order with a two-space indent:

    \x7b
      "visits": 5,
      "last_updated": "2025-01-01T12:00:00Z",
      "version": "1.0.0",
      "crc": 123
    \x7d

(no trailing newline; the `"crc"` member absent when crc == 0). -/

structure CounterData where
  visits : Int
  timestamp : String
  version : String
  crc : Nat
deriving Repr, DecidableEq

/-- `config.Version`. -/
def Version : String := "1.0.0"

def hexDigitChar (n : Nat) : Char :=
  if n < 10 then Char.ofNat (48 + n) else Char.ofNat (87 + n)

/-- A `\u00XX` escape for a byte-sized character code. -/
def uEscape (c : Char) : List Char :=
  ['\\', 'u', '0', '0', hexDigitChar (c.toNat / 16), hexDigitChar (c.toNat % 16)]

/-- Go `encoding/json` string escaping (default HTML escaping on): quote and
backslash, `\n` `\r` `\t`, other control characters and `<` `>` `&` as
`\u00XX`; everything else verbatim. -/
def escapeChar (c : Char) : List Char :=
  if c = '"' then ['\\', '"']
  else if c = '\\' then ['\\', '\\']
  else if c = '\n' then ['\\', 'n']
  else if c = '\r' then ['\\', 'r']
  else if c = '\t' then ['\\', 't']
  else if c.toNat < 32 then uEscape c
  else if c = '<' then uEscape c
  else if c = '>' then uEscape c
  else if c = '&' then uEscape c
  else [c]

def jsonStringChars (s : String) : List Char :=
  '"' :: (s.data.map escapeChar).flatten ++ ['"']

/-- Decimal digits of a natural number (fuel-based so that it is structural
and kernel-evaluable; `n + 1` fuel always suffices). -/
def natToCharsAux : Nat → Nat → List Char → List Char
  | 0, _, acc => acc
  | fuel + 1, n, acc =>
    if n < 10 then Char.ofNat (48 + n) :: acc
    else natToCharsAux fuel (n / 10) (Char.ofNat (48 + n % 10) :: acc)

def natToChars (n : Nat) : List Char := natToCharsAux (n + 1) n []

/-- Go's decimal rendering of an `int64`. -/
def intToChars (i : Int) : List Char :=
  if i < 0 then '-' :: natToChars i.natAbs else natToChars i.natAbs

/-- Model of `json.MarshalIndent(data, "", "  ")` on a `CounterData` value
(see the section comment for the exact layout; `crc` omitted when zero). -/
def marshalCounterData (d : CounterData) : List Char :=
  ("\x7b\n  \"visits\": ".data) ++ intToChars d.visits ++
  (",\n  \"last_updated\": ".data) ++ jsonStringChars d.timestamp ++
  (",\n  \"version\": ".data) ++ jsonStringChars d.version ++
  (if d.crc = 0 then [] else (",\n  \"crc\": ".data) ++ natToChars d.crc) ++
  ("\n\x7d".data)

/-- The two-pass encoding performed by `SaveCounter`: marshal with the crc
field unset, checksum those bytes, then marshal again with the crc field
populated.  Returns the final record and its bytes. -/
def encodeRecord (v : Int) (ts ver : String) : CounterData × List Char :=
  let d0 : CounterData := { visits := v, timestamp := ts, version := ver, crc := 0 }
  let pass1 := marshalCounterData d0
  let crc := CalculateCRC pass1
  let d : CounterData := { d0 with crc := crc }
  (d, marshalCounterData d)

/-! ## Deserialization (model of `json.Unmarshal` into `CounterData`)

A recursive-descent reader for the JSON value space this program ever reads
and writes: one top-level object whose members are strings or integer
numbers.  Faithful to `encoding/json` where the claims touch it: arbitrary
interleaving whitespace is accepted and discarded, unknown members are
ignored, a later duplicate member overwrites an earlier one, missing members
leave the Go zero value, a number for `visits` must fit in int64 and a number
for `crc` must fit in uint32 (otherwise `Unmarshal` errors), a non-string for
`last_updated`/`version` or a non-number for `visits`/`crc` errors, raw
control characters inside strings error, and trailing non-whitespace after
the object errors.  (Not modelled: JSON values this program never writes —
floats, exponents, booleans, null, nesting — and `\uXXXX` string escapes and
RFC3339 re-validation of `last_updated`; inputs used in the theorems below
stay inside the modelled space, where Go and the model agree.) -/

def isWsChar (c : Char) : Bool := c = ' ' || c = '\n' || c = '\t' || c = '\r'

/-- True when the input does not begin with a decimal digit (where a maximal
digit run necessarily ends). -/
def noLeadingDigit : List Char → Bool
  | [] => true
  | c :: _ => !c.isDigit

/-- Characters that Go's JSON encoder emits verbatim inside a string and that
terminate nothing early in the reader: not a quote, not a backslash, not a
control character, not one of the HTML-escaped `<` `>` `&`. -/
def cleanChar (c : Char) : Bool :=
  (c != '"') && (c != '\\') && decide (32 ≤ c.toNat) && (c != '<') && (c != '>') && (c != '&')

def skipWs : List Char → List Char
  | [] => []
  | c :: cs => if isWsChar c then skipWs cs else c :: cs

/-- Read a JSON string body after the opening quote, unescaping; `acc` holds
the chars read so far, reversed. -/
def parseStringAux : List Char → List Char → Option (String × List Char)
  | _, [] => none
  | acc, c :: cs =>
    if c = '"' then some (⟨acc.reverse⟩, cs)
    else if c = '\\' then
      match cs with
      | [] => none
      | e :: cs2 =>
        if e = '"' then parseStringAux ('"' :: acc) cs2
        else if e = '\\' then parseStringAux ('\\' :: acc) cs2
        else if e = '/' then parseStringAux ('/' :: acc) cs2
        else if e = 'n' then parseStringAux ('\n' :: acc) cs2
        else if e = 't' then parseStringAux ('\t' :: acc) cs2
        else if e = 'r' then parseStringAux ('\r' :: acc) cs2
        else none
    else if c.toNat < 32 then none
    else parseStringAux (c :: acc) cs

/-- Consume a maximal run of decimal digits, accumulating their value. -/
def parseDigitsAux : Nat → List Char → Nat × List Char
  | acc, [] => (acc, [])
  | acc, c :: cs =>
    if c.isDigit then parseDigitsAux (acc * 10 + (c.toNat - 48)) cs
    else (acc, c :: cs)

/-- Read an integer JSON number (optional minus, then digits). -/
def parseNumber (input : List Char) : Option (Int × List Char) :=
  match input with
  | [] => none
  | c :: cs =>
    if c = '-' then
      match cs with
      | [] => none
      | c2 :: cs2 =>
        if c2.isDigit then
          let p := parseDigitsAux (c2.toNat - 48) cs2
          some (-(p.1 : Int), p.2)
        else none
    else if c.isDigit then
      let p := parseDigitsAux (c.toNat - 48) cs
      some ((p.1 : Int), p.2)
    else none

inductive JValue where
  | jstr (s : String)
  | jint (n : Int)
deriving Repr, DecidableEq

/-- Read one JSON member value (string or integer number). -/
def parseValue (input : List Char) : Option (JValue × List Char) :=
  match input with
  | [] => none
  | c :: cs =>
    if c = '"' then (parseStringAux [] cs).map (fun p => (.jstr p.1, p.2))
    else (parseNumber input).map (fun p => (.jint p.1, p.2))

/-- Assign one parsed member into the struct, as `encoding/json` does:
known keys are type- and range-checked (int64 for `visits`, uint32 for
`crc`), unknown keys are ignored. -/
def applyMember (d : CounterData) (key : String) (v : JValue) : Option CounterData :=
  if key = "visits" then
    match v with
    | .jint n => if int64Min ≤ n ∧ n ≤ int64Max then some { d with visits := n } else none
    | _ => none
  else if key = "last_updated" then
    match v with
    | .jstr s => some { d with timestamp := s }
    | _ => none
  else if key = "version" then
    match v with
    | .jstr s => some { d with version := s }
    | _ => none
  else if key = "crc" then
    match v with
    | .jint n => if 0 ≤ n ∧ n < 2 ^ 32 then some { d with crc := n.toNat } else none
    | _ => none
  else some d

/-- Read the members of the top-level object (input positioned just after the
opening brace).  The fuel only bounds the number of members; every member
consumes at least one input char, so `input.length + 1` fuel is always
enough. -/
def parseMembers : Nat → CounterData → List Char → Option (CounterData × List Char)
  | 0, _, _ => none
  | fuel + 1, d, input =>
    match skipWs input with
    | [] => none
    | c :: cs =>
      if c = '"' then
        (parseStringAux [] cs).bind (fun kr =>
          match skipWs kr.2 with
          | ':' :: rest2 =>
            (parseValue (skipWs rest2)).bind (fun vr =>
              (applyMember d kr.1 vr.1).bind (fun d2 =>
                match skipWs vr.2 with
                | ',' :: rest4 => parseMembers fuel d2 rest4
                | '\x7d' :: rest4 => some (d2, rest4)
                | _ => none))
          | _ => none)
      else none

/-- Model of `json.Unmarshal(content, &data)` for a `CounterData` target. -/
def unmarshal (input : List Char) : Option CounterData :=
  match skipWs input with
  | '\x7b' :: cs =>
    let d0 : CounterData := { visits := 0, timestamp := "", version := "", crc := 0 }
    match skipWs cs with
    | '\x7d' :: rest => if (skipWs rest).isEmpty then some d0 else none
    | _ =>
      (parseMembers (cs.length + 1) d0 cs).bind (fun dr =>
        if (skipWs dr.2).isEmpty then some dr.1 else none)
  | _ => none

/-! ## LoadCounter (persistence.go)

The environment injects the outcome of each fallible I/O step (`os.Stat`
existence check, `os.OpenFile`, `syscall.Flock(LOCK_SH)`, `f.Stat`,
`io.ReadAll`); `content` is what a successful read returns. -/

structure LoadEnv where
  fileExists : Bool
  openFails : Bool
  lockFails : Bool
  statFails : Bool
  readFails : Bool
  content : List Char
deriving Repr, DecidableEq

/-- Model of `LoadCounter`: missing file, empty file, undecodable content and
a present non-zero crc that fails revalidation all yield `NewCounter 0`
without error; open/lock/stat/read failures return an error.  (The source
revalidates by re-marshalling a copy with `CRC = 0` and recomputing
`CalculateCRC`; its marshal step cannot fail, so the model always
validates.) -/
def LoadCounter (e : LoadEnv) : Except Unit Counter :=
  if !e.fileExists then .ok (NewCounter 0)
  else if e.openFails then .error ()
  else if e.lockFails then .error ()
  else if e.statFails then .error ()
  else if e.content.isEmpty then .ok (NewCounter 0)
  else if e.readFails then .error ()
  else
    match unmarshal e.content with
    | none => .ok (NewCounter 0)
    | some data =>
      if data.crc > 0 then
        let dataCopy := { data with crc := 0 }
        let jsonBytes := marshalCounterData dataCopy
        if CalculateCRC jsonBytes ≠ data.crc then .ok (NewCounter 0)
        else .ok (NewCounter data.visits)
      else .ok (NewCounter data.visits)

/-! ## SaveCounter (persistence.go)

`SaveCounter` snapshots `counter.GetValue()`, two-pass-encodes it, then tries
`writeCounterToDisk` up to `cfg.SaveRetryAttempts` times.  On the first
success it calls `counter.MarkClean()` and returns nil.  Each failed attempt
increments `metrics.PersistErrors` and sleeps `cfg.SaveRetryDelay`; after the
last failure it returns an error.  The per-attempt `WriteEnv` is injected via
`envs : Nat → WriteEnv` (attempt index, 0-based). -/

structure SaveResult where
  /-- true iff `SaveCounter` returned nil -/
  ok : Bool
  /-- the counter state when `SaveCounter` returns -/
  counter : Counter
  /-- number of `metrics.PersistErrors.Inc()` calls -/
  persistErrors : Nat
  /-- number of `time.Sleep(cfg.SaveRetryDelay)` calls -/
  sleeps : Nat
  /-- number of physical `writeCounterToDisk` attempts performed -/
  attemptsMade : Nat
  /-- target file content when `SaveCounter` returns -/
  disk : Option (List Char)
deriving Repr, DecidableEq

def saveAttemptLoop (bytes : List Char) (envs : Nat → WriteEnv) (c : Counter)
    (disk : Option (List Char)) : Nat → Nat → SaveResult
  | _, 0 =>
    { ok := false, counter := c, persistErrors := 0, sleeps := 0,
      attemptsMade := 0, disk := disk }
  | i, remaining + 1 =>
    if (writeCounterToDisk (envs i)).ok then
      { ok := true, counter := c.MarkClean, persistErrors := 0, sleeps := 0,
        attemptsMade := 1, disk := some bytes }
    else
      let r := saveAttemptLoop bytes envs c disk (i + 1) remaining
      { r with persistErrors := r.persistErrors + 1, sleeps := r.sleeps + 1,
               attemptsMade := r.attemptsMade + 1 }

/-- Model of `SaveCounter` (ts is the `time.Now()` of this call, rendered;
`retryAttempts` is `cfg.SaveRetryAttempts`; `disk` the current target file). -/
def SaveCounter (c : Counter) (ts : String) (retryAttempts : Nat)
    (envs : Nat → WriteEnv) (disk : Option (List Char)) : SaveResult :=
  let bytes := (encodeRecord c.GetValue ts Version).2
  saveAttemptLoop bytes envs c disk 0 retryAttempts

/-! ## Service (service.go) -/

structure ServiceState where
  counter : Counter
  disk : Option (List Char)
deriving Repr, DecidableEq

/-- Model of `NewService`: `LoadCounter` then construct; a load error makes
construction fail. -/
def NewService (e : LoadEnv) : Except Unit ServiceState :=
  match LoadCounter e with
  | .error err => .error err
  | .ok c =>
    .ok { counter := c,
          disk := if e.fileExists then some e.content else none }

/-- Model of `(*Service).Persist`: under `persistMu`, return nil immediately
if the counter is not dirty (no file write at all); otherwise run
`SaveCounter`.  Result: (returned-nil?, new state, save statistics). -/
def Service.Persist (s : ServiceState) (ts : String) (retryAttempts : Nat)
    (envs : Nat → WriteEnv) : Bool × ServiceState × SaveResult :=
  if s.counter.IsDirty = false then
    (true, s,
     { ok := true, counter := s.counter, persistErrors := 0, sleeps := 0,
       attemptsMade := 0, disk := s.disk })
  else
    let r := SaveCounter s.counter ts retryAttempts envs s.disk
    (r.ok, { counter := r.counter, disk := r.disk }, r)

/-! ## One successful save with racing increments

`SaveCounter` under a concurrent writer: the snapshot `counter.GetValue()` is
taken first; `k₁` Increment calls land between the snapshot and `MarkClean`
(each is `Visits.Add(1)` then `dirty.Store(true)`, and `MarkClean` afterwards
stores `lastSaved := Visits.Load()` and `dirty := false` unconditionally);
`k₂` further Increment calls land after `MarkClean` but before `SaveCounter`
returns.  The disk receives the bytes of the snapshot value.  This is the
exact interleaving semantics of the atomic operations in the source — an
Increment that lands between `MarkClean`'s two stores also ends with
`dirty = false`, which the `k₁` group covers. -/
def persistRaceOutcome (c : Counter) (ts : String) (k₁ k₂ : Nat) :
    Counter × List Char :=
  let snapshot := c.GetValue
  let bytes := (encodeRecord snapshot ts Version).2
  let c₁ := incrementN c k₁
  let c₂ := c₁.MarkClean
  let c₃ := incrementN c₂ k₂
  (c₃, bytes)

/-! ## Concrete fixtures used by witnesses and counterexamples -/

/-- A fixed rendered `time.Now()` for concrete runs. -/
def tsFix : String := "2025-01-01T12:00:00Z"

def envAllOk : WriteEnv :=
  { openFails := false, lockFails := false, writeFails := false,
    syncFails := false, renameFails := false }

def envLockFail : WriteEnv := { envAllOk with lockFails := true }

def envWriteFail : WriteEnv := { envAllOk with writeFails := true }

def envSyncFail : WriteEnv := { envAllOk with syncFails := true }

def envRenameFail : WriteEnv := { envAllOk with renameFails := true }

def envsAllOk : Nat → WriteEnv := fun _ => envAllOk

def envsAllFail : Nat → WriteEnv := fun _ => envLockFail

/-- The spec's retry scenario: the first two physical attempts fail, the
third succeeds. -/
def envsTwoFailures : Nat → WriteEnv := fun i => if i < 2 then envLockFail else envAllOk

/-- A counter that has been incremented once from zero (value 1, dirty). -/
def counterDirty1 : Counter := ((NewCounter 0).Increment).1

instance : DecidableEq (Except Unit Counter) := fun a b =>
  match a, b with
  | .ok x, .ok y => if h : x = y then isTrue (by rw [h]) else isFalse (by simp [h])
  | .error x, .error y => isTrue (by rfl)
  | .ok _, .error _ => isFalse (by simp)
  | .error _, .ok _ => isFalse (by simp)

/-- Load environment for an existing, readable file with the given content. -/
def loadEnvOf (content : List Char) : LoadEnv :=
  { fileExists := true, openFails := false, lockFails := false,
    statFails := false, readFails := false, content := content }

/-- Load environment when the counter file does not exist. -/
def loadEnvMissing : LoadEnv :=
  { fileExists := false, openFails := false, lockFails := false,
    statFails := false, readFails := false, content := [] }

/-- A record whose stored crc (12345) does not match its content: used as a
concrete checksum-mismatch file. -/
def mismatchContent : List Char :=
  marshalCounterData { visits := 6, timestamp := tsFix, version := Version, crc := 12345 }

/-- A file content that is not JSON at all. -/
def garbageContent : List Char := "not json at all".data

/-- An existing file whose open fails. -/
def loadEnvOpenFail : LoadEnv :=
  { fileExists := true, openFails := true, lockFails := false,
    statFails := false, readFails := false, content := ['x'] }

/-- A second concrete mismatched record (visits 7 with stored crc 99999). -/
def mismatchContent2 : List Char :=
  marshalCounterData { visits := 7, timestamp := tsFix, version := Version, crc := 99999 }

/-- A valid encoded record for visits = 5 (successful encode output). -/
def validContent : List Char := (encodeRecord 5 tsFix Version).2

/-- A valid encoded record for visits = 0. -/
def validContent0 : List Char := (encodeRecord 0 tsFix Version).2

/-- `validContent` with the single byte at index 1 (the newline after the
opening brace) replaced by a space. -/
def corruptedContent : List Char := validContent.set 1 ' '

/-! # Theorems

Helper lemmas first, then one theorem (plus witness or counterexample) per
claim. -/

/-! ## Arithmetic and counter helpers -/

theorem wrap64_eq_self {x : Int} (h1 : int64Min ≤ x) (h2 : x ≤ int64Max) :
    wrap64 x = x := by
  simp only [wrap64, int64Min, int64Max] at *
  omega

theorem wrap64_wrap64_add (x y : Int) : wrap64 (wrap64 x + y) = wrap64 (x + y) := by
  simp only [wrap64]
  omega

theorem Counter.GetValue_eq (c : Counter) : c.GetValue = c.visits := rfl

theorem Counter.IsDirty_eq (c : Counter) : c.IsDirty = c.dirty := rfl

theorem incrementN_visits (c : Counter) (n : Nat)
    (h : inInt64Range c.visits) :
    (incrementN c n).visits = wrap64 (c.visits + n) := by
  induction n with
  | zero => simpa [incrementN] using (wrap64_eq_self h.1 h.2).symm
  | succ n ih =>
      simp only [incrementN, Counter.Increment, ih]
      rw [wrap64_wrap64_add]
      congr 1
      push_cast
      ring

theorem incrementN_dirty (c : Counter) (n : Nat) :
    (incrementN c n).dirty = (decide (n ≠ 0) || c.dirty) := by
  cases n with
  | zero => simp [incrementN]
  | succ n => simp [incrementN, Counter.Increment]

theorem incrementN_lastSaved (c : Counter) (n : Nat) :
    (incrementN c n).lastSaved = c.lastSaved := by
  induction n with
  | zero => rfl
  | succ n ih => simp [incrementN, Counter.Increment, ih]

/-! ## Save-loop helpers -/

section SaveLoop

variable (bytes : List Char) (envs : Nat → WriteEnv) (c : Counter)
variable (disk : Option (List Char))

theorem saveAttemptLoop_attempts_le :
    ∀ (n i : Nat), (saveAttemptLoop bytes envs c disk i n).attemptsMade ≤ n := by
  intro n
  induction n with
  | zero => intro i; simp [saveAttemptLoop]
  | succ n ih =>
      intro i
      simp only [saveAttemptLoop]
      by_cases h : (writeCounterToDisk (envs i)).ok = true
      · simp [h]
      · simp only [h, if_false, Bool.false_eq_true]
        have := ih (i + 1)
        omega

theorem saveAttemptLoop_ok_iff :
    ∀ (n i : Nat), (saveAttemptLoop bytes envs c disk i n).ok = true ↔
      ∃ j, j < n ∧ (writeCounterToDisk (envs (i + j))).ok = true := by
  intro n
  induction n with
  | zero => intro i; simp [saveAttemptLoop]
  | succ n ih =>
      intro i
      simp only [saveAttemptLoop]
      by_cases h : (writeCounterToDisk (envs i)).ok = true
      · simp only [h, if_true]
        constructor
        · intro _
          exact ⟨0, by omega, by simpa using h⟩
        · intro _
          trivial
      · simp only [h, if_false, Bool.false_eq_true]
        constructor
        · intro hok
          obtain ⟨j, hj, hjo⟩ := (ih (i + 1)).1 hok
          exact ⟨j + 1, by omega, by simpa [Nat.add_assoc, Nat.add_comm 1 j] using hjo⟩
        · rintro ⟨j, hj, hjo⟩
          cases j with
          | zero => simp at hjo; exact absurd hjo h
          | succ j =>
              exact (ih (i + 1)).2 ⟨j, by omega,
                by simpa [Nat.add_assoc, Nat.add_comm 1 j] using hjo⟩

theorem saveAttemptLoop_counter :
    ∀ (n i : Nat), (saveAttemptLoop bytes envs c disk i n).counter =
      (if (saveAttemptLoop bytes envs c disk i n).ok = true then c.MarkClean else c) := by
  intro n
  induction n with
  | zero => intro i; simp [saveAttemptLoop]
  | succ n ih =>
      intro i
      simp only [saveAttemptLoop]
      by_cases h : (writeCounterToDisk (envs i)).ok = true
      · simp [h]
      · simpa only [h, if_false, Bool.false_eq_true] using ih (i + 1)

theorem saveAttemptLoop_disk :
    ∀ (n i : Nat), (saveAttemptLoop bytes envs c disk i n).disk =
      (if (saveAttemptLoop bytes envs c disk i n).ok = true then some bytes else disk) := by
  intro n
  induction n with
  | zero => intro i; simp [saveAttemptLoop]
  | succ n ih =>
      intro i
      simp only [saveAttemptLoop]
      by_cases h : (writeCounterToDisk (envs i)).ok = true
      · simp [h]
      · simpa only [h, if_false, Bool.false_eq_true] using ih (i + 1)

theorem saveAttemptLoop_attempts_pos_of_ok :
    ∀ (n i : Nat), (saveAttemptLoop bytes envs c disk i n).ok = true →
      1 ≤ (saveAttemptLoop bytes envs c disk i n).attemptsMade := by
  intro n
  induction n with
  | zero => intro i h; simp [saveAttemptLoop] at h
  | succ n ih =>
      intro i
      simp only [saveAttemptLoop]
      by_cases h : (writeCounterToDisk (envs i)).ok = true
      · simp [h]
      · simp only [h, if_false, Bool.false_eq_true]
        intro hok
        have := ih (i + 1) hok
        omega

theorem saveAttemptLoop_errors :
    ∀ (n i : Nat), (saveAttemptLoop bytes envs c disk i n).persistErrors =
      (saveAttemptLoop bytes envs c disk i n).attemptsMade -
        (if (saveAttemptLoop bytes envs c disk i n).ok = true then 1 else 0) := by
  intro n
  induction n with
  | zero => intro i; simp [saveAttemptLoop]
  | succ n ih =>
      intro i
      simp only [saveAttemptLoop]
      by_cases h : (writeCounterToDisk (envs i)).ok = true
      · simp [h]
      · simp only [h, if_false, Bool.false_eq_true]
        by_cases hok : (saveAttemptLoop bytes envs c disk (i + 1) n).ok = true
        · have h1 := saveAttemptLoop_attempts_pos_of_ok bytes envs c disk n (i + 1) hok
          have h2 := ih (i + 1)
          simp only [hok, if_true] at h2 ⊢
          omega
        · have h2 := ih (i + 1)
          simp only [hok, if_false, Bool.false_eq_true] at h2 ⊢
          omega

theorem saveAttemptLoop_sleeps :
    ∀ (n i : Nat), (saveAttemptLoop bytes envs c disk i n).sleeps =
      (saveAttemptLoop bytes envs c disk i n).persistErrors := by
  intro n
  induction n with
  | zero => intro i; simp [saveAttemptLoop]
  | succ n ih =>
      intro i
      simp only [saveAttemptLoop]
      by_cases h : (writeCounterToDisk (envs i)).ok = true
      · simp [h]
      · simp only [h, if_false, Bool.false_eq_true]
        simpa using ih (i + 1)

theorem saveAttemptLoop_min :
    ∀ (n i j : Nat), j + 1 < (saveAttemptLoop bytes envs c disk i n).attemptsMade →
      (writeCounterToDisk (envs (i + j))).ok = false := by
  intro n
  induction n with
  | zero => intro i j h; simp [saveAttemptLoop] at h
  | succ n ih =>
      intro i j
      simp only [saveAttemptLoop]
      by_cases h : (writeCounterToDisk (envs i)).ok = true
      · simp only [h, if_true]
        intro hj
        omega
      · simp only [h, if_false, Bool.false_eq_true]
        intro hj
        cases j with
        | zero => simpa using h
        | succ j =>
            have := ih (i + 1) j (by omega)
            simpa [Nat.add_assoc, Nat.add_comm 1 j] using this

theorem saveAttemptLoop_last :
    ∀ (n i : Nat), (saveAttemptLoop bytes envs c disk i n).ok = true →
      (writeCounterToDisk
        (envs (i + ((saveAttemptLoop bytes envs c disk i n).attemptsMade - 1)))).ok = true := by
  intro n
  induction n with
  | zero => intro i h; simp [saveAttemptLoop] at h
  | succ n ih =>
      intro i
      simp only [saveAttemptLoop]
      by_cases h : (writeCounterToDisk (envs i)).ok = true
      · simp [h]
      · simp only [h, if_false, Bool.false_eq_true]
        intro hok
        have hpos := saveAttemptLoop_attempts_pos_of_ok bytes envs c disk n (i + 1) hok
        have := ih (i + 1) hok
        have harith : i + 1 + ((saveAttemptLoop bytes envs c disk (i + 1) n).attemptsMade - 1) =
            i + ((saveAttemptLoop bytes envs c disk (i + 1) n).attemptsMade + 1 - 1) := by omega
        simpa [harith] using this

theorem saveAttemptLoop_exhaust :
    ∀ (n i : Nat), (saveAttemptLoop bytes envs c disk i n).ok = false →
      (saveAttemptLoop bytes envs c disk i n).attemptsMade = n := by
  intro n
  induction n with
  | zero => intro i _; simp [saveAttemptLoop]
  | succ n ih =>
      intro i
      simp only [saveAttemptLoop]
      by_cases h : (writeCounterToDisk (envs i)).ok = true
      · simp [h]
      · simp only [h, if_false, Bool.false_eq_true]
        intro hok
        have := ih (i + 1) (by simpa using hok)
        omega

end SaveLoop

/-! ## C9 — Increment semantics -/

/-- C9 counterexample: the claim demands `get_value() = v + N` for every
initial value; at the int64 upper bound a single Increment wraps to int64Min
instead of adding one mathematically (Go `atomic.Int64.Add` wraps). -/
theorem increment_overflow_counterexample :
    ((NewCounter int64Max).Increment).2 = int64Min ∧
    ((NewCounter int64Max).Increment).2 ≠ (NewCounter int64Max).GetValue + 1 := by
  constructor
  · show wrap64 (int64Max + 1) = int64Min
    simp only [wrap64, int64Max, int64Min]
    decide
  · show wrap64 (int64Max + 1) ≠ int64Max + 1
    simp only [wrap64, int64Max, int64Min]
    decide

/-- C9 amended: every Increment is total, adds exactly 1 in wrapping int64
arithmetic, sets the dirty flag, and returns the new value; N increments from
an in-range initial value leave the value at `wrap64 (v + N)`, which equals
`v + N` (no lost updates) whenever `v + N` is still inside the int64 range. -/
theorem increment_adds_one_wrapping (c : Counter) (n : Nat)
    (h : inInt64Range c.visits) :
    (c.Increment).2 = wrap64 (c.GetValue + 1) ∧
    (c.Increment).1.GetValue = wrap64 (c.GetValue + 1) ∧
    (c.Increment).1.IsDirty = true ∧
    (incrementN c n).GetValue = wrap64 (c.GetValue + n) ∧
    (inInt64Range (c.GetValue + n) →
      (incrementN c n).GetValue = c.GetValue + n) := by
  refine ⟨rfl, rfl, rfl, incrementN_visits c n h, ?_⟩
  intro h2
  rw [show (incrementN c n).GetValue = (incrementN c n).visits from rfl,
      incrementN_visits c n h]
  exact wrap64_eq_self h2.1 h2.2

theorem increment_adds_one_wrapping_witness :
    inInt64Range (NewCounter 0).visits ∧
    inInt64Range ((NewCounter 0).GetValue + ((5 : Nat) : Int)) ∧
    (incrementN (NewCounter 0) 5).GetValue = (NewCounter 0).GetValue + ((5 : Nat) : Int) :=
  ⟨by decide, by decide,
   (increment_adds_one_wrapping (NewCounter 0) 5 (by decide)).2.2.2.2 (by decide)⟩

/-! ## C1 — dirty flag across a racing save -/

/-- C1 counterexample: a successful save during which one Increment lands
between the value snapshot and MarkClean (`k₁ = 1`, `k₂ = 0`) ends with
`IsDirty = false` — the claim requires true in this interleaving. -/
theorem markClean_race_counterexample :
    ((persistRaceOutcome counterDirty1 tsFix 1 0).1).IsDirty = false := by
  decide

/-- C1 amended (the behavior of the source): `MarkClean` clears the dirty
flag unconditionally, so after a successful persist the counter is dirty iff
some Increment landed after MarkClean's dirty-clear (`k₂ ≠ 0`); Increments
between the snapshot and the clear (`k₁`) leave the counter clean even though
the file received only the snapshot value, and `lastSaved` records the value
current at MarkClean time, not the snapshot. -/
theorem persist_race_dirty_iff_late_increment (c : Counter) (ts : String)
    (k₁ k₂ : Nat) :
    ((persistRaceOutcome c ts k₁ k₂).1).IsDirty = decide (k₂ ≠ 0) ∧
    (persistRaceOutcome c ts k₁ k₂).2 = (encodeRecord c.GetValue ts Version).2 ∧
    ((persistRaceOutcome c ts k₁ k₂).1).lastSaved = (incrementN c k₁).visits := by
  refine ⟨?_, rfl, ?_⟩
  · show (incrementN ((incrementN c k₁).MarkClean) k₂).dirty = decide (k₂ ≠ 0)
    rw [incrementN_dirty]
    simp [Counter.MarkClean]
  · show (incrementN ((incrementN c k₁).MarkClean) k₂).lastSaved = _
    rw [incrementN_lastSaved]
    rfl

/-! ## C3 — temp-file cleanup on a failed physical write -/

/-- C3 (code bug in the source): `writeCounterToDisk` propagates an error on
every failure, but the flock failure and the rename failure assign a shadowed
`err` (`if err := ...`), so the deferred cleanup — which tests the outer
`err` and carries the comment "Clean up temp file on error" — does not run
for them and the temp file is left on disk.  Only the write and sync
failures (which assign the outer `err`) remove it. -/
theorem writeCounterToDisk_failure_behavior :
    ((writeCounterToDisk envLockFail).result = some .lockE ∧
     (writeCounterToDisk envLockFail).tempCreated = true ∧
     (writeCounterToDisk envLockFail).tempExistsAfter = true) ∧
    ((writeCounterToDisk envRenameFail).result = some .renameE ∧
     (writeCounterToDisk envRenameFail).tempExistsAfter = true) ∧
    ((writeCounterToDisk envWriteFail).result = some .writeE ∧
     (writeCounterToDisk envWriteFail).tempExistsAfter = false) ∧
    ((writeCounterToDisk envSyncFail).result = some .syncE ∧
     (writeCounterToDisk envSyncFail).tempExistsAfter = false) := by
  decide

/-! ## C6 — retry semantics of SaveCounter -/

/-- C6: SaveCounter performs at most `retryAttempts` physical attempts; each
failed attempt records exactly one persist-error event followed by one fixed
retry delay (`sleeps = persistErrors`, and `persistErrors` is the number of
failed attempts); it returns success iff some attempt among the configured
budget succeeds, stopping at the first success (all earlier attempts failed,
the last one made succeeded); it fails only after all `retryAttempts`
attempts failed, leaving the target file untouched; and the in-memory value
is never rolled back. -/
theorem saveCounter_retry_spec (c : Counter) (ts : String) (retryAttempts : Nat)
    (envs : Nat → WriteEnv) (disk : Option (List Char)) :
    (SaveCounter c ts retryAttempts envs disk).attemptsMade ≤ retryAttempts ∧
    (SaveCounter c ts retryAttempts envs disk).sleeps =
      (SaveCounter c ts retryAttempts envs disk).persistErrors ∧
    (SaveCounter c ts retryAttempts envs disk).persistErrors =
      (SaveCounter c ts retryAttempts envs disk).attemptsMade -
        (if (SaveCounter c ts retryAttempts envs disk).ok = true then 1 else 0) ∧
    ((SaveCounter c ts retryAttempts envs disk).ok = true ↔
      ∃ j, j < retryAttempts ∧ (writeCounterToDisk (envs j)).ok = true) ∧
    (∀ j, j + 1 < (SaveCounter c ts retryAttempts envs disk).attemptsMade →
      (writeCounterToDisk (envs j)).ok = false) ∧
    ((SaveCounter c ts retryAttempts envs disk).ok = true →
      (writeCounterToDisk
        (envs ((SaveCounter c ts retryAttempts envs disk).attemptsMade - 1))).ok = true) ∧
    ((SaveCounter c ts retryAttempts envs disk).ok = false →
      (SaveCounter c ts retryAttempts envs disk).attemptsMade = retryAttempts ∧
      (SaveCounter c ts retryAttempts envs disk).disk = disk) ∧
    (SaveCounter c ts retryAttempts envs disk).counter.GetValue = c.GetValue := by
  refine ⟨saveAttemptLoop_attempts_le _ envs c disk retryAttempts 0,
    saveAttemptLoop_sleeps _ envs c disk retryAttempts 0,
    saveAttemptLoop_errors _ envs c disk retryAttempts 0,
    by simpa using saveAttemptLoop_ok_iff _ envs c disk retryAttempts 0,
    fun j hj => by simpa using saveAttemptLoop_min _ envs c disk retryAttempts 0 j hj,
    fun hok => by simpa using saveAttemptLoop_last _ envs c disk retryAttempts 0 hok,
    fun hfail => ⟨saveAttemptLoop_exhaust _ envs c disk retryAttempts 0 hfail, ?_⟩, ?_⟩
  · show (saveAttemptLoop (encodeRecord c.GetValue ts Version).2 envs c disk
      0 retryAttempts).disk = disk
    rw [saveAttemptLoop_disk]
    simp only [show (saveAttemptLoop (encodeRecord c.GetValue ts Version).2 envs c disk
      0 retryAttempts).ok = false from hfail]
    simp
  · show (saveAttemptLoop (encodeRecord c.GetValue ts Version).2 envs c disk
      0 retryAttempts).counter.GetValue = c.GetValue
    rw [saveAttemptLoop_counter]
    split <;> rfl

/-- C6 witness: the spec's retry scenario — two injected failures with three
configured attempts — succeeds with exactly two persist-error events. -/
theorem saveCounter_retry_spec_witness :
    (SaveCounter counterDirty1 tsFix 3 envsTwoFailures none).ok = true ∧
    (SaveCounter counterDirty1 tsFix 3 envsTwoFailures none).persistErrors = 2 := by
  have h := saveCounter_retry_spec counterDirty1 tsFix 3 envsTwoFailures none
  refine ⟨h.2.2.2.1.mpr ⟨2, by decide, by decide⟩, by decide⟩

/-! ## C8 — persist-twice idempotence -/

theorem persist_ok_counter_clean (s : ServiceState) (ts : String) (n : Nat)
    (envs : Nat → WriteEnv) (h : (Service.Persist s ts n envs).1 = true) :
    ((Service.Persist s ts n envs).2.1).counter.IsDirty = false := by
  by_cases hd : s.counter.IsDirty = false
  · simp only [Service.Persist, hd, if_true]
  · simp only [Service.Persist, hd, if_false] at h ⊢
    show (saveAttemptLoop (encodeRecord s.counter.GetValue ts Version).2 envs
      s.counter s.disk 0 n).counter.IsDirty = false
    rw [saveAttemptLoop_counter]
    have hok : (saveAttemptLoop (encodeRecord s.counter.GetValue ts Version).2 envs
        s.counter s.disk 0 n).ok = true := h
    simp only [hok, if_true]
    rfl

/-- A `persist()` on a clean counter is a no-op success: no physical write
attempts, no errors, no delays, state unchanged. -/
theorem persist_noop_of_clean (s : ServiceState) (ts : String) (n : Nat)
    (envs : Nat → WriteEnv) (h : s.counter.IsDirty = false) :
    Service.Persist s ts n envs =
      (true, s,
        { ok := true, counter := s.counter, persistErrors := 0, sleeps := 0,
          attemptsMade := 0, disk := s.disk }) := by
  simp [Service.Persist, h]

/-- C8: if a `persist()` call reports success then an immediately following
`persist()` with no intervening increment is a no-op success: it performs
zero physical write attempts, records no errors or delays, and leaves the
service state (counter and file) unchanged. -/
theorem persist_twice_second_noop (s : ServiceState) (ts ts' : String)
    (n n' : Nat) (envs envs' : Nat → WriteEnv)
    (h : (Service.Persist s ts n envs).1 = true) :
    Service.Persist ((Service.Persist s ts n envs).2.1) ts' n' envs' =
      (true, (Service.Persist s ts n envs).2.1,
        { ok := true,
          counter := ((Service.Persist s ts n envs).2.1).counter,
          persistErrors := 0, sleeps := 0, attemptsMade := 0,
          disk := ((Service.Persist s ts n envs).2.1).disk }) :=
  persist_noop_of_clean _ ts' n' envs' (persist_ok_counter_clean s ts n envs h)

theorem persist_twice_second_noop_witness :
    (Service.Persist { counter := counterDirty1, disk := none } tsFix 1 envsAllOk).1 = true ∧
    (Service.Persist
      ((Service.Persist { counter := counterDirty1, disk := none } tsFix 1 envsAllOk).2.1)
      tsFix 1 envsAllOk).2.2.attemptsMade = 0 := by
  refine ⟨by decide, ?_⟩
  rw [persist_twice_second_noop _ tsFix tsFix 1 1 envsAllOk envsAllOk (by decide)]

/-! ## C7 — two-pass encoding and the checksum function -/

/-- C7: the crc stored in the final record equals `CalculateCRC` of the
serialization with the checksum unset (which `omitempty` drops from the
bytes, as `marshalCounterData` shows for `crc = 0`); the final bytes are the
re-serialization of the record with that crc populated; and the checksum is
the order-dependent rolling fold `acc := (acc * 31 + byte) mod 2^32` seeded
at 0. -/
theorem encode_two_pass_crc (v : Int) (ts ver : String) (l : List Char) :
    ((encodeRecord v ts ver).1).crc =
      CalculateCRC (marshalCounterData
        { visits := v, timestamp := ts, version := ver, crc := 0 }) ∧
    (encodeRecord v ts ver).2 = marshalCounterData ((encodeRecord v ts ver).1) ∧
    CalculateCRC l = l.foldl (fun acc b => (acc * 31 + b.toNat) % 2 ^ 32) 0 :=
  ⟨rfl, rfl, rfl⟩

/-! ## C5 — invalid or absent records load as zero -/

/-- C5: whenever the counter file is absent, or exists and is readable but is
empty, fails to decode, or carries a present non-zero crc that fails
revalidation, LoadCounter returns a zero-valued counter and no error — an
invalid or absent record never aborts a load. -/
theorem loadCounter_invalid_record_yields_zero (e : LoadEnv)
    (h : e.fileExists = false ∨
      (e.openFails = false ∧ e.lockFails = false ∧ e.statFails = false ∧
        (e.content.isEmpty = true ∨
          (e.readFails = false ∧
            (unmarshal e.content = none ∨
              ∃ d, unmarshal e.content = some d ∧ 0 < d.crc ∧
                CalculateCRC (marshalCounterData { d with crc := 0 }) ≠ d.crc))))) :
    LoadCounter e = .ok (NewCounter 0) := by
  rcases h with h | ⟨ho, hl, hs, h⟩
  · simp [LoadCounter, h]
  · by_cases hex : e.fileExists = true
    case neg =>
      simp only [Bool.not_eq_true] at hex
      simp [LoadCounter, hex]
    case pos =>
      rcases h with hempty | ⟨hr, h⟩
      · simp [LoadCounter, hex, ho, hl, hs, hempty]
      · by_cases hempty : e.content.isEmpty = true
        · simp [LoadCounter, hex, ho, hl, hs, hempty]
        · rcases h with hum | ⟨d, hum, hcrc, hmm⟩
          · simp [LoadCounter, hex, ho, hl, hs, hempty, hr, hum]
          · simp [LoadCounter, hex, ho, hl, hs, hempty, hr, hum, hcrc, hmm]

set_option maxRecDepth 100000 in
/-- C5 witness: a concrete existing file whose stored crc (12345) does not
match its content loads as the zero counter without error. -/
theorem loadCounter_invalid_record_yields_zero_witness :
    LoadCounter (loadEnvOf mismatchContent) = .ok (NewCounter 0) :=
  loadCounter_invalid_record_yields_zero (loadEnvOf mismatchContent)
    (Or.inr ⟨rfl, rfl, rfl, Or.inr ⟨rfl, Or.inr
      ⟨{ visits := 6, timestamp := tsFix, version := Version, crc := 12345 },
        by decide, by decide, by decide⟩⟩⟩)

/-! ## C10 — I/O failures on an existing file abort the load -/

/-- C10: when the counter file exists, a failure to open it, to acquire the
shared lock, to stat it, or to read it (the file being non-empty) makes
LoadCounter return an error, and service construction fails with it; these
I/O failures are not absorbed into the zero-counter fallback. -/
theorem loadCounter_io_failure_errors (e : LoadEnv)
    (hex : e.fileExists = true)
    (h : e.openFails = true ∨
      (e.openFails = false ∧ e.lockFails = true) ∨
      (e.openFails = false ∧ e.lockFails = false ∧ e.statFails = true) ∨
      (e.openFails = false ∧ e.lockFails = false ∧ e.statFails = false ∧
        e.content.isEmpty = false ∧ e.readFails = true)) :
    LoadCounter e = .error () ∧ NewService e = .error () := by
  have hload : LoadCounter e = .error () := by
    rcases h with ho | ⟨ho, hl⟩ | ⟨ho, hl, hs⟩ | ⟨ho, hl, hs, hne, hr⟩
    · simp [LoadCounter, hex, ho]
    · simp [LoadCounter, hex, ho, hl]
    · simp [LoadCounter, hex, ho, hl, hs]
    · simp [LoadCounter, hex, ho, hl, hs, hne, hr]
  exact ⟨hload, by simp [NewService, hload]⟩

/-- C10 witness: an existing file whose open fails makes both LoadCounter and
NewService error out. -/
theorem loadCounter_io_failure_errors_witness :
    LoadCounter loadEnvOpenFail = .error () ∧ NewService loadEnvOpenFail = .error () :=
  loadCounter_io_failure_errors loadEnvOpenFail (by decide) (Or.inl (by decide))

/-! ## Character and decimal-rendering helpers -/

theorem char_toNat_injective {c d : Char} (h : c.toNat = d.toNat) : c = d :=
  Char.eq_of_val_eq (UInt32.ext h)

theorem char_isDigit_bounds {c : Char} (h : c.isDigit = true) :
    48 ≤ c.toNat ∧ c.toNat ≤ 57 := by
  simp [Char.isDigit] at h
  exact ⟨h.1, h.2⟩

theorem digit_ne {c : Char} (h : c.isDigit = true) (d : Char)
    (hd : d.toNat < 48 ∨ 57 < d.toNat) : c ≠ d := by
  intro heq
  have hb := char_isDigit_bounds h
  rw [heq] at hb
  omega

theorem digit_not_ws {c : Char} (h : c.isDigit = true) : isWsChar c = false := by
  have hb := char_isDigit_bounds h
  simp only [isWsChar, Bool.or_eq_false_iff, decide_eq_false_iff_not]
  refine ⟨⟨⟨?_, ?_⟩, ?_⟩, ?_⟩ <;>
    · intro heq
      rw [heq] at hb
      simp at hb

theorem digitChar_toNat {k : Nat} (h : k < 10) :
    (Char.ofNat (48 + k)).toNat = 48 + k := by
  interval_cases k <;> decide

theorem digitChar_isDigit {k : Nat} (h : k < 10) :
    (Char.ofNat (48 + k)).isDigit = true := by
  interval_cases k <;> decide

theorem natToCharsAux_acc :
    ∀ (n : Nat), ∀ (fuel : Nat) (acc : List Char), n < fuel →
      natToCharsAux fuel n acc = natToChars n ++ acc := by
  intro n
  induction n using Nat.strong_induction_on with
  | _ n ih =>
    intro fuel acc hfuel
    match fuel with
    | fuel + 1 =>
      by_cases h10 : n < 10
      · simp [natToCharsAux, natToChars, h10]
      · have hdiv : n / 10 < n := Nat.div_lt_self (by omega) (by norm_num)
        have h1 : natToCharsAux (fuel + 1) n acc =
            natToCharsAux fuel (n / 10) (Char.ofNat (48 + n % 10) :: acc) := by
          simp [natToCharsAux, h10]
        have h2 : natToChars n =
            natToCharsAux n (n / 10) [Char.ofNat (48 + n % 10)] := by
          simp [natToChars, natToCharsAux, h10]
        rw [h1, h2]
        rw [ih (n / 10) hdiv fuel _ (by omega),
            ih (n / 10) hdiv n _ (by omega)]
        simp

theorem natToChars_lt10 {n : Nat} (h : n < 10) :
    natToChars n = [Char.ofNat (48 + n)] := by
  simp [natToChars, natToCharsAux, h]

theorem natToChars_ge10 {n : Nat} (h : 10 ≤ n) :
    natToChars n = natToChars (n / 10) ++ [Char.ofNat (48 + n % 10)] := by
  have h10 : ¬ n < 10 := by omega
  have h2 : natToChars n = natToCharsAux n (n / 10) [Char.ofNat (48 + n % 10)] := by
    simp [natToChars, natToCharsAux, h10]
  rw [h2, natToCharsAux_acc (n / 10) n _ (by
    have := Nat.div_lt_self (by omega : 0 < n) (by norm_num : 1 < 10)
    omega)]

theorem natToChars_all_digit : ∀ (n : Nat), ∀ c ∈ natToChars n, c.isDigit = true := by
  intro n
  induction n using Nat.strong_induction_on with
  | _ n ih =>
    by_cases h10 : n < 10
    · rw [natToChars_lt10 h10]
      intro c hc
      simp only [List.mem_singleton] at hc
      subst hc
      exact digitChar_isDigit h10
    · rw [natToChars_ge10 (by omega)]
      intro c hc
      rcases List.mem_append.1 hc with hc | hc
      · exact ih (n / 10) (Nat.div_lt_self (by omega) (by norm_num)) c hc
      · simp only [List.mem_singleton] at hc
        subst hc
        exact digitChar_isDigit (Nat.mod_lt n (by norm_num))

theorem natToChars_ne_nil (n : Nat) : natToChars n ≠ [] := by
  by_cases h10 : n < 10
  · rw [natToChars_lt10 h10]; simp
  · rw [natToChars_ge10 (by omega)]; simp

/-! ## Number-parse inversion -/

theorem natToChars_foldl_val :
    ∀ (n : Nat), ∀ (acc : Nat),
      (natToChars n).foldl (fun a c => a * 10 + (c.toNat - 48)) acc =
        acc * 10 ^ (natToChars n).length + n := by
  intro n
  induction n using Nat.strong_induction_on with
  | _ n ih =>
    intro acc
    by_cases h10 : n < 10
    · rw [natToChars_lt10 h10]
      simp [digitChar_toNat h10]
    · rw [natToChars_ge10 (by omega)]
      rw [List.foldl_append]
      rw [ih (n / 10) (Nat.div_lt_self (by omega) (by norm_num))]
      have hmod : n % 10 < 10 := Nat.mod_lt n (by norm_num)
      simp only [List.foldl_cons, List.foldl_nil, List.length_append,
        List.length_singleton, digitChar_toNat hmod]
      have hsub : 48 + n % 10 - 48 = n % 10 := by omega
      rw [hsub, pow_succ]
      have hdm : 10 * (n / 10) + n % 10 = n := Nat.div_add_mod n 10
      calc (acc * 10 ^ (natToChars (n / 10)).length + n / 10) * 10 + n % 10
      _ = acc * (10 ^ (natToChars (n / 10)).length * 10) + (10 * (n / 10) + n % 10) := by ring
      _ = acc * (10 ^ (natToChars (n / 10)).length * 10) + n := by rw [hdm]

theorem parseDigitsAux_append_digits :
    ∀ (ds : List Char), (∀ c ∈ ds, c.isDigit = true) →
      ∀ (acc : Nat) (rest : List Char),
        parseDigitsAux acc (ds ++ rest) =
          parseDigitsAux (ds.foldl (fun a c => a * 10 + (c.toNat - 48)) acc) rest := by
  intro ds
  induction ds with
  | nil => intro _ acc rest; rfl
  | cons c ds ih =>
      intro hd acc rest
      have hc : c.isDigit = true := hd c (by simp)
      simp only [List.cons_append, parseDigitsAux, hc, if_true, List.foldl_cons]
      exact ih (fun x hx => hd x (by simp [hx])) _ rest

theorem parseDigitsAux_stop (acc : Nat) (rest : List Char)
    (h : noLeadingDigit rest = true) : parseDigitsAux acc rest = (acc, rest) := by
  cases rest with
  | nil => rfl
  | cons c cs =>
      simp only [noLeadingDigit, Bool.not_eq_true'] at h
      simp [parseDigitsAux, h]

theorem parseDigitsAux_natToChars (n : Nat) (rest : List Char)
    (h : noLeadingDigit rest = true) :
    parseDigitsAux 0 (natToChars n ++ rest) = (n, rest) := by
  rw [parseDigitsAux_append_digits (natToChars n) (natToChars_all_digit n) 0 rest]
  rw [natToChars_foldl_val]
  simp [parseDigitsAux_stop _ _ h]

theorem parseNumber_natToChars (n : Nat) (rest : List Char)
    (h : noLeadingDigit rest = true) :
    parseNumber (natToChars n ++ rest) = some ((n : Int), rest) := by
  obtain ⟨d, ds, hds⟩ := List.exists_cons_of_ne_nil (natToChars_ne_nil n)
  have hd : d.isDigit = true := natToChars_all_digit n d (by rw [hds]; simp)
  have hdm : ¬ (d = '-') := digit_ne hd '-' (by left; decide)
  have hkey : parseDigitsAux 0 (natToChars n ++ rest) = (n, rest) :=
    parseDigitsAux_natToChars n rest h
  rw [hds] at hkey ⊢
  simp only [List.cons_append, parseDigitsAux, hd, if_true, Nat.zero_mul,
    Nat.zero_add] at hkey
  simp only [List.cons_append, parseNumber, hdm, if_false, hd, if_true]
  simp only [List.append_eq] at hkey
  rw [hkey]

theorem intToChars_natCast (n : Nat) : intToChars (n : Int) = natToChars n := by
  simp [intToChars]

/-! ## Clean-string escape and parse inversion -/

theorem cleanChar_spec {c : Char} (h : cleanChar c = true) :
    ¬ (c = '"') ∧ ¬ (c = '\\') ∧ ¬ (c.toNat < 32) ∧ ¬ (c = '<') ∧ ¬ (c = '>') ∧
      ¬ (c = '&') := by
  simp only [cleanChar, Bool.and_eq_true, bne_iff_ne, ne_eq,
    decide_eq_true_eq] at h
  obtain ⟨⟨⟨⟨⟨h1, h2⟩, h3⟩, h4⟩, h5⟩, h6⟩ := h
  exact ⟨h1, h2, by omega, h4, h5, h6⟩

theorem cleanChar_not_lf {c : Char} (h : cleanChar c = true) : ¬ (c = '\n') := by
  intro heq
  have := (cleanChar_spec h).2.2.1
  rw [heq] at this
  exact this (by decide)

theorem cleanChar_not_cr {c : Char} (h : cleanChar c = true) : ¬ (c = '\r') := by
  intro heq
  have := (cleanChar_spec h).2.2.1
  rw [heq] at this
  exact this (by decide)

theorem cleanChar_not_tab {c : Char} (h : cleanChar c = true) : ¬ (c = '\t') := by
  intro heq
  have := (cleanChar_spec h).2.2.1
  rw [heq] at this
  exact this (by decide)

theorem escapeChar_clean {c : Char} (h : cleanChar c = true) : escapeChar c = [c] := by
  obtain ⟨h1, h2, h3, h4, h5, h6⟩ := cleanChar_spec h
  simp [escapeChar, h1, h2, h3, h4, h5, h6, cleanChar_not_lf h,
    cleanChar_not_cr h, cleanChar_not_tab h]

theorem flatten_escape_clean :
    ∀ (l : List Char), l.all cleanChar = true → (l.map escapeChar).flatten = l := by
  intro l
  induction l with
  | nil => intro _; rfl
  | cons c l ih =>
      intro h
      simp only [List.all_cons, Bool.and_eq_true] at h
      simp [escapeChar_clean h.1, ih h.2]

theorem jsonStringChars_clean {s : String} (h : s.data.all cleanChar = true) :
    jsonStringChars s = '"' :: s.data ++ ['"'] := by
  simp [jsonStringChars, flatten_escape_clean s.data h]

theorem parseStringAux_clean :
    ∀ (l : List Char), l.all cleanChar = true → ∀ (acc rest : List Char),
      parseStringAux acc (l ++ '"' :: rest) = some (⟨acc.reverse ++ l⟩, rest) := by
  intro l
  induction l with
  | nil =>
      intro _ acc rest
      simp only [List.nil_append, List.append_nil]
      rw [parseStringAux.eq_def]
      rfl
  | cons c l ih =>
      intro h acc rest
      simp only [List.all_cons, Bool.and_eq_true] at h
      obtain ⟨hc, hl⟩ := h
      obtain ⟨h1, h2, h3, _, _, _⟩ := cleanChar_spec hc
      rw [List.cons_append, parseStringAux.eq_def]
      simp only [h1, if_false, h2, h3]
      rw [ih hl (c :: acc) rest]
      simp

theorem parseStringAux_string {s : String} (h : s.data.all cleanChar = true)
    (rest : List Char) :
    parseStringAux [] (s.data ++ '"' :: rest) = some (s, rest) := by
  rw [parseStringAux_clean s.data h [] rest]
  rfl

theorem skipWs_not_ws {c : Char} (h : isWsChar c = false) (cs : List Char) :
    skipWs (c :: cs) = c :: cs := by
  simp [skipWs, h]

/-! ## Member-by-member parse of the canonical serialization -/

theorem parseMembers_visits (f : Nat) (d : CounterData) (n : Nat)
    (hn : (n : Int) ≤ int64Max) (rest : List Char) :
    parseMembers (f + 1) d
      ("\n  \"visits\": ".data ++ (natToChars n ++ (',' :: rest))) =
      parseMembers f { d with visits := (n : Int) } rest := by
  obtain ⟨d1, ds, hds⟩ := List.exists_cons_of_ne_nil (natToChars_ne_nil n)
  have hd1 : d1.isDigit = true := natToChars_all_digit n d1 (by rw [hds]; simp)
  have hws : isWsChar d1 = false := digit_not_ws hd1
  have hq : ¬ (d1 = '"') := digit_ne hd1 '"' (by left; decide)
  have h1 : skipWs ("\n  \"visits\": ".data ++ (natToChars n ++ (',' :: rest))) =
      '"' :: ("visits\": ".data ++ (natToChars n ++ (',' :: rest))) := rfl
  have h2 : parseStringAux [] ("visits\": ".data ++ (natToChars n ++ (',' :: rest))) =
      some ("visits", ':' :: ' ' :: (natToChars n ++ (',' :: rest))) := by
    rw [hds]; rfl
  have h3 : skipWs (':' :: ' ' :: (natToChars n ++ (',' :: rest))) =
      ':' :: ' ' :: (natToChars n ++ (',' :: rest)) := rfl
  have h4 : skipWs (' ' :: (natToChars n ++ (',' :: rest))) =
      natToChars n ++ (',' :: rest) := by
    rw [hds]
    show skipWs (d1 :: (ds ++ (',' :: rest))) = d1 :: (ds ++ (',' :: rest))
    exact skipWs_not_ws hws _
  have h5 : parseValue (natToChars n ++ (',' :: rest)) =
      some (.jint (n : Int), ',' :: rest) := by
    rw [hds]
    show parseValue (d1 :: (ds ++ (',' :: rest))) = _
    simp only [parseValue, hq, if_false]
    rw [show (d1 :: (ds ++ (',' :: rest))) = (d1 :: ds) ++ (',' :: rest) from rfl, ← hds]
    rw [parseNumber_natToChars n (',' :: rest) rfl]
    rfl
  have h6 : applyMember d "visits" (.jint (n : Int)) =
      some { d with visits := (n : Int) } := by
    have hrange : int64Min ≤ (n : Int) ∧ (n : Int) ≤ int64Max :=
      ⟨le_trans (by decide) (Int.natCast_nonneg n), hn⟩
    simp only [applyMember, if_pos rfl]
    rw [if_pos hrange]
    simp
  simp only [parseMembers, h1, h2, h3, h4, h5, h6, Option.some_bind]
  rfl

theorem parseMembers_timestamp (f : Nat) (d : CounterData) (s : String)
    (hs : s.data.all cleanChar = true) (rest : List Char) :
    parseMembers (f + 1) d
      ("\n  \"last_updated\": ".data ++ ('"' :: (s.data ++ ('"' :: (',' :: rest))))) =
      parseMembers f { d with timestamp := s } rest := by
  have h1 : skipWs ("\n  \"last_updated\": ".data ++
        ('"' :: (s.data ++ ('"' :: (',' :: rest))))) =
      '"' :: ("last_updated\": ".data ++ ('"' :: (s.data ++ ('"' :: (',' :: rest))))) := rfl
  have h2 : parseStringAux [] ("last_updated\": ".data ++
        ('"' :: (s.data ++ ('"' :: (',' :: rest))))) =
      some ("last_updated", ':' :: ' ' :: ('"' :: (s.data ++ ('"' :: (',' :: rest))))) := rfl
  have h3 : skipWs (':' :: ' ' :: ('"' :: (s.data ++ ('"' :: (',' :: rest))))) =
      ':' :: ' ' :: ('"' :: (s.data ++ ('"' :: (',' :: rest)))) := rfl
  have h4 : skipWs (' ' :: ('"' :: (s.data ++ ('"' :: (',' :: rest))))) =
      '"' :: (s.data ++ ('"' :: (',' :: rest))) := rfl
  have h5 : parseValue ('"' :: (s.data ++ ('"' :: (',' :: rest)))) =
      some (.jstr s, ',' :: rest) := by
    simp only [parseValue, if_pos rfl]
    rw [parseStringAux_string hs (',' :: rest)]
    simp
  have h6 : applyMember d "last_updated" (.jstr s) =
      some { d with timestamp := s } := by
    simp only [applyMember, if_neg (show ¬ ("last_updated" = "visits") by decide),
      if_pos rfl]
    simp
  simp only [parseMembers, h1, h2, h3, h4, h5, h6, Option.some_bind]
  rfl

theorem parseMembers_version_comma (f : Nat) (d : CounterData) (s : String)
    (hs : s.data.all cleanChar = true) (rest : List Char) :
    parseMembers (f + 1) d
      ("\n  \"version\": ".data ++ ('"' :: (s.data ++ ('"' :: (',' :: rest))))) =
      parseMembers f { d with version := s } rest := by
  have h1 : skipWs ("\n  \"version\": ".data ++
        ('"' :: (s.data ++ ('"' :: (',' :: rest))))) =
      '"' :: ("version\": ".data ++ ('"' :: (s.data ++ ('"' :: (',' :: rest))))) := rfl
  have h2 : parseStringAux [] ("version\": ".data ++
        ('"' :: (s.data ++ ('"' :: (',' :: rest))))) =
      some ("version", ':' :: ' ' :: ('"' :: (s.data ++ ('"' :: (',' :: rest))))) := rfl
  have h3 : skipWs (':' :: ' ' :: ('"' :: (s.data ++ ('"' :: (',' :: rest))))) =
      ':' :: ' ' :: ('"' :: (s.data ++ ('"' :: (',' :: rest)))) := rfl
  have h4 : skipWs (' ' :: ('"' :: (s.data ++ ('"' :: (',' :: rest))))) =
      '"' :: (s.data ++ ('"' :: (',' :: rest))) := rfl
  have h5 : parseValue ('"' :: (s.data ++ ('"' :: (',' :: rest)))) =
      some (.jstr s, ',' :: rest) := by
    simp only [parseValue, if_pos rfl]
    rw [parseStringAux_string hs (',' :: rest)]
    simp
  have h6 : applyMember d "version" (.jstr s) = some { d with version := s } := by
    simp only [applyMember, if_neg (show ¬ ("version" = "visits") by decide),
      if_neg (show ¬ ("version" = "last_updated") by decide), if_pos rfl]
    simp
  simp only [parseMembers, h1, h2, h3, h4, h5, h6, Option.some_bind]
  rfl

theorem parseMembers_version_end (f : Nat) (d : CounterData) (s : String)
    (hs : s.data.all cleanChar = true) :
    parseMembers (f + 1) d
      ("\n  \"version\": ".data ++ ('"' :: (s.data ++ ('"' :: ('\n' :: '\x7d' :: []))))) =
      some ({ d with version := s }, []) := by
  have h1 : skipWs ("\n  \"version\": ".data ++
        ('"' :: (s.data ++ ('"' :: ('\n' :: '\x7d' :: []))))) =
      '"' :: ("version\": ".data ++ ('"' :: (s.data ++ ('"' :: ('\n' :: '\x7d' :: []))))) := rfl
  have h2 : parseStringAux [] ("version\": ".data ++
        ('"' :: (s.data ++ ('"' :: ('\n' :: '\x7d' :: []))))) =
      some ("version", ':' :: ' ' :: ('"' :: (s.data ++ ('"' :: ('\n' :: '\x7d' :: []))))) := rfl
  have h3 : skipWs (':' :: ' ' :: ('"' :: (s.data ++ ('"' :: ('\n' :: '\x7d' :: []))))) =
      ':' :: ' ' :: ('"' :: (s.data ++ ('"' :: ('\n' :: '\x7d' :: [])))) := rfl
  have h4 : skipWs (' ' :: ('"' :: (s.data ++ ('"' :: ('\n' :: '\x7d' :: []))))) =
      '"' :: (s.data ++ ('"' :: ('\n' :: '\x7d' :: []))) := rfl
  have h5 : parseValue ('"' :: (s.data ++ ('"' :: ('\n' :: '\x7d' :: [])))) =
      some (.jstr s, '\n' :: '\x7d' :: []) := by
    simp only [parseValue, if_pos rfl]
    rw [parseStringAux_string hs ('\n' :: '\x7d' :: [])]
    simp
  have h6 : applyMember d "version" (.jstr s) = some { d with version := s } := by
    simp only [applyMember, if_neg (show ¬ ("version" = "visits") by decide),
      if_neg (show ¬ ("version" = "last_updated") by decide), if_pos rfl]
    simp
  simp only [parseMembers, h1, h2, h3, h4, h5, h6, Option.some_bind]
  rfl

theorem parseMembers_crc_end (f : Nat) (d : CounterData) (m : Nat)
    (hm : m < 2 ^ 32) (rest : List Char) :
    parseMembers (f + 1) d
      ("\n  \"crc\": ".data ++ (natToChars m ++ ('\n' :: '\x7d' :: rest))) =
      some ({ d with crc := m }, rest) := by
  obtain ⟨d1, ds, hds⟩ := List.exists_cons_of_ne_nil (natToChars_ne_nil m)
  have hd1 : d1.isDigit = true := natToChars_all_digit m d1 (by rw [hds]; simp)
  have hws : isWsChar d1 = false := digit_not_ws hd1
  have hq : ¬ (d1 = '"') := digit_ne hd1 '"' (by left; decide)
  have h1 : skipWs ("\n  \"crc\": ".data ++ (natToChars m ++ ('\n' :: '\x7d' :: rest))) =
      '"' :: ("crc\": ".data ++ (natToChars m ++ ('\n' :: '\x7d' :: rest))) := rfl
  have h2 : parseStringAux [] ("crc\": ".data ++ (natToChars m ++ ('\n' :: '\x7d' :: rest))) =
      some ("crc", ':' :: ' ' :: (natToChars m ++ ('\n' :: '\x7d' :: rest))) := by
    rw [hds]; rfl
  have h3 : skipWs (':' :: ' ' :: (natToChars m ++ ('\n' :: '\x7d' :: rest))) =
      ':' :: ' ' :: (natToChars m ++ ('\n' :: '\x7d' :: rest)) := rfl
  have h4 : skipWs (' ' :: (natToChars m ++ ('\n' :: '\x7d' :: rest))) =
      natToChars m ++ ('\n' :: '\x7d' :: rest) := by
    rw [hds]
    show skipWs (d1 :: (ds ++ ('\n' :: '\x7d' :: rest))) = d1 :: (ds ++ ('\n' :: '\x7d' :: rest))
    exact skipWs_not_ws hws _
  have h5 : parseValue (natToChars m ++ ('\n' :: '\x7d' :: rest)) =
      some (.jint (m : Int), '\n' :: '\x7d' :: rest) := by
    rw [hds]
    show parseValue (d1 :: (ds ++ ('\n' :: '\x7d' :: rest))) = _
    simp only [parseValue, hq, if_false]
    rw [show (d1 :: (ds ++ ('\n' :: '\x7d' :: rest))) =
        (d1 :: ds) ++ ('\n' :: '\x7d' :: rest) from rfl, ← hds]
    rw [parseNumber_natToChars m ('\n' :: '\x7d' :: rest) rfl]
    rfl
  have h6 : applyMember d "crc" (.jint (m : Int)) = some { d with crc := m } := by
    have hrange : (0 : Int) ≤ (m : Int) ∧ (m : Int) < 2 ^ 32 := by
      constructor
      · exact Int.natCast_nonneg m
      · exact_mod_cast hm
    simp only [applyMember, if_neg (show ¬ ("crc" = "visits") by decide),
      if_neg (show ¬ ("crc" = "last_updated") by decide),
      if_neg (show ¬ ("crc" = "version") by decide), if_pos rfl]
    rw [if_pos hrange]
    simp
  simp only [parseMembers]
  rw [h1]
  simp only [if_pos rfl]
  rw [h2]
  simp only [Option.some_bind]
  rw [h3]
  simp only [h4]
  rw [h5, Option.some_bind]
  dsimp only
  rw [h6, Option.some_bind]
  rfl

/-! ## Parse-from-serialization helpers (round trip) -/

theorem unmarshal_eq_of_members (cs : List Char)
    (h1x : ∃ K, skipWs cs = '"' :: K) (res : CounterData)
    (hlen : 3 ≤ cs.length)
    (hkey : ∀ f, 4 ≤ f →
      parseMembers f { visits := 0, timestamp := "", version := "", crc := 0 } cs =
        some (res, [])) :
    unmarshal ('\x7b' :: cs) = some res := by
  obtain ⟨K, h1⟩ := h1x
  have hne : ¬ (('"' : Char) = '\x7d') := by decide
  have hb : skipWs ('\x7b' :: cs) = '\x7b' :: cs := skipWs_not_ws (by decide) cs
  rw [unmarshal.eq_def, hb]
  simp only []
  rw [h1]
  split
  next rest heq =>
    rw [List.cons.injEq] at heq
    exact absurd heq.1 hne
  next h2 =>
    rw [hkey (cs.length + 1) (by omega), Option.some_bind]
    rfl

theorem parseMembers_chain_crc (g : Nat) (n : Nat) (hn : (n : Int) ≤ int64Max)
    (ts ver : String) (hts : ts.data.all cleanChar = true)
    (hver : ver.data.all cleanChar = true) (crc : Nat) (hcrc : crc < 2 ^ 32) :
    parseMembers (g + 4) { visits := 0, timestamp := "", version := "", crc := 0 }
      ("\n  \"visits\": ".data ++ (natToChars n ++ (',' :: ("\n  \"last_updated\": ".data ++ ('"' :: (ts.data ++ ('"' :: (',' :: ("\n  \"version\": ".data ++ ('"' :: (ver.data ++ ('"' :: (','  :: ("\n  \"crc\": ".data ++ (natToChars crc ++ ('\n' :: '\x7d' :: [])))))))))))))))) =
      some ({ visits := (n : Int), timestamp := ts, version := ver, crc := crc }, []) :=
  calc
    parseMembers (g + 4) { visits := 0, timestamp := "", version := "", crc := 0 }
      ("\n  \"visits\": ".data ++ (natToChars n ++ (',' :: ("\n  \"last_updated\": ".data ++ ('"' :: (ts.data ++ ('"' :: (',' :: ("\n  \"version\": ".data ++ ('"' :: (ver.data ++ ('"' :: (','  :: ("\n  \"crc\": ".data ++ (natToChars crc ++ ('\n' :: '\x7d' :: []))))))))))))))))
      = parseMembers (g + 3) { visits := (n : Int), timestamp := "", version := "", crc := 0 }
          ("\n  \"last_updated\": ".data ++ ('"' :: (ts.data ++ ('"' :: (',' :: ("\n  \"version\": ".data ++ ('"' :: (ver.data ++ ('"' :: (','  :: ("\n  \"crc\": ".data ++ (natToChars crc ++ ('\n' :: '\x7d' :: []))))))))))))) :=
        parseMembers_visits (g + 3) _ n hn _
    _ = parseMembers (g + 2) { visits := (n : Int), timestamp := ts, version := "", crc := 0 }
          ("\n  \"version\": ".data ++ ('"' :: (ver.data ++ ('"' :: (','  :: ("\n  \"crc\": ".data ++ (natToChars crc ++ ('\n' :: '\x7d' :: [])))))))) :=
        parseMembers_timestamp (g + 2) _ ts hts _
    _ = parseMembers (g + 1) { visits := (n : Int), timestamp := ts, version := ver, crc := 0 }
          ("\n  \"crc\": ".data ++ (natToChars crc ++ ('\n' :: '\x7d' :: []))) :=
        parseMembers_version_comma (g + 1) _ ver hver _
    _ = some ({ visits := (n : Int), timestamp := ts, version := ver, crc := crc }, []) :=
        parseMembers_crc_end g _ crc hcrc []

theorem parseMembers_chain_nocrc (g : Nat) (n : Nat) (hn : (n : Int) ≤ int64Max)
    (ts ver : String) (hts : ts.data.all cleanChar = true)
    (hver : ver.data.all cleanChar = true) :
    parseMembers (g + 3) { visits := 0, timestamp := "", version := "", crc := 0 }
      ("\n  \"visits\": ".data ++ (natToChars n ++ (',' :: ("\n  \"last_updated\": ".data ++ ('"' :: (ts.data ++ ('"' :: (',' :: ("\n  \"version\": ".data ++ ('"' :: (ver.data ++ ('"' :: ('\n' :: '\x7d' :: []))))))))))))) =
      some ({ visits := (n : Int), timestamp := ts, version := ver, crc := 0 }, []) :=
  calc
    parseMembers (g + 3) { visits := 0, timestamp := "", version := "", crc := 0 }
      ("\n  \"visits\": ".data ++ (natToChars n ++ (',' :: ("\n  \"last_updated\": ".data ++ ('"' :: (ts.data ++ ('"' :: (',' :: ("\n  \"version\": ".data ++ ('"' :: (ver.data ++ ('"' :: ('\n' :: '\x7d' :: [])))))))))))))
      = parseMembers (g + 2) { visits := (n : Int), timestamp := "", version := "", crc := 0 }
          ("\n  \"last_updated\": ".data ++ ('"' :: (ts.data ++ ('"' :: (',' :: ("\n  \"version\": ".data ++ ('"' :: (ver.data ++ ('"' :: ('\n' :: '\x7d' :: [])))))))))) :=
        parseMembers_visits (g + 2) _ n hn _
    _ = parseMembers (g + 1) { visits := (n : Int), timestamp := ts, version := "", crc := 0 }
          ("\n  \"version\": ".data ++ ('"' :: (ver.data ++ ('"' :: ('\n' :: '\x7d' :: []))))) :=
        parseMembers_timestamp (g + 1) _ ts hts _
    _ = some ({ visits := (n : Int), timestamp := ts, version := ver, crc := 0 }, []) :=
        parseMembers_version_end g _ ver hver

theorem unmarshal_marshal (n : Nat) (hn : (n : Int) ≤ int64Max)
    (ts ver : String) (hts : ts.data.all cleanChar = true)
    (hver : ver.data.all cleanChar = true) (crc : Nat) (hcrc : crc < 2 ^ 32) :
    unmarshal (marshalCounterData
      { visits := (n : Int), timestamp := ts, version := ver, crc := crc }) =
      some { visits := (n : Int), timestamp := ts, version := ver, crc := crc } := by
  have e1 : ("\x7b\n  \"visits\": ".data : List Char) =
      '\x7b' :: "\n  \"visits\": ".data := rfl
  have e2 : ((",\n  \"last_updated\": ".data : List Char)) =
      ',' :: "\n  \"last_updated\": ".data := rfl
  have e3 : ((",\n  \"version\": ".data : List Char)) =
      ',' :: "\n  \"version\": ".data := rfl
  have e4 : ((",\n  \"crc\": ".data : List Char)) = ',' :: "\n  \"crc\": ".data := rfl
  have e5 : (("\n\x7d".data : List Char)) = '\n' :: '\x7d' :: [] := rfl
  rcases Nat.eq_zero_or_pos crc with hc0 | hcpos
  · subst hc0
    unfold marshalCounterData
    rw [show ({ visits := (n : Int), timestamp := ts, version := ver, crc := 0 } :
        CounterData).crc = 0 from rfl]
    rw [if_pos rfl]
    rw [show ({ visits := (n : Int), timestamp := ts, version := ver, crc := 0 } :
        CounterData).visits = (n : Int) from rfl]
    rw [intToChars_natCast, jsonStringChars_clean hts, jsonStringChars_clean hver,
      e1, e2, e3, e5]
    simp only [List.cons_append, List.nil_append, List.append_assoc, List.append_nil]
    refine unmarshal_eq_of_members _ ?_ _ ?_ ?_
    · exact ⟨_, rfl⟩
    · simp
    · intro f hf
      obtain ⟨g, hg⟩ : ∃ g, f = g + 3 := ⟨f - 3, by omega⟩
      subst hg
      exact parseMembers_chain_nocrc g n hn ts ver hts hver
  · have hcne : ¬ (crc = 0) := by omega
    unfold marshalCounterData
    rw [show ({ visits := (n : Int), timestamp := ts, version := ver, crc := crc } :
        CounterData).crc = crc from rfl]
    rw [if_neg hcne]
    rw [show ({ visits := (n : Int), timestamp := ts, version := ver, crc := crc } :
        CounterData).visits = (n : Int) from rfl]
    rw [intToChars_natCast, jsonStringChars_clean hts, jsonStringChars_clean hver,
      e1, e2, e3, e4, e5]
    simp only [List.cons_append, List.nil_append, List.append_assoc, List.append_nil]
    refine unmarshal_eq_of_members _ ?_ _ ?_ ?_
    · exact ⟨_, rfl⟩
    · simp
    · intro f hf
      obtain ⟨g, hg⟩ : ∃ g, f = g + 4 := ⟨f - 4, by omega⟩
      subst hg
      exact parseMembers_chain_crc g n hn ts ver hts hver crc hcrc

theorem crcFold_lt : ∀ (l : List Char) (a : Nat), a < 2 ^ 32 →
    l.foldl (fun crc b => (crc * 31 + b.toNat) % 2 ^ 32) a < 2 ^ 32 := by
  intro l
  induction l with
  | nil => intro a ha; exact ha
  | cons c l ih => intro a _; exact ih _ (Nat.mod_lt _ (by norm_num))

theorem CalculateCRC_lt (l : List Char) : CalculateCRC l < 2 ^ 32 :=
  crcFold_lt l 0 (by norm_num)

theorem crc_step_inj (x a b : Nat) (ha : a < 2 ^ 32) (hb : b < 2 ^ 32)
    (h : (a * 31 + x) % 2 ^ 32 = (b * 31 + x) % 2 ^ 32) : a = b := by
  have h1 : a * 31 + x ≡ b * 31 + x [MOD 2 ^ 32] := h
  have h2 : a * 31 ≡ b * 31 [MOD 2 ^ 32] := Nat.ModEq.add_right_cancel' x h1
  have h3 : a ≡ b [MOD 2 ^ 32] := Nat.ModEq.cancel_right_of_coprime (by norm_num) h2
  have h4 : a % 2 ^ 32 = b % 2 ^ 32 := h3
  rwa [Nat.mod_eq_of_lt ha, Nat.mod_eq_of_lt hb] at h4

theorem crc_byte_inj (a x y : Nat) (hx : x < 2 ^ 32) (hy : y < 2 ^ 32)
    (h : (a * 31 + x) % 2 ^ 32 = (a * 31 + y) % 2 ^ 32) : x = y := by
  have h1 : a * 31 + x ≡ a * 31 + y [MOD 2 ^ 32] := h
  have h2 : x ≡ y [MOD 2 ^ 32] := Nat.ModEq.add_left_cancel' (a * 31) h1
  have h4 : x % 2 ^ 32 = y % 2 ^ 32 := h2
  rwa [Nat.mod_eq_of_lt hx, Nat.mod_eq_of_lt hy] at h4

theorem crcFold_ne : ∀ (l : List Char) (a b : Nat), a < 2 ^ 32 → b < 2 ^ 32 → a ≠ b →
    l.foldl (fun crc c => (crc * 31 + c.toNat) % 2 ^ 32) a ≠
      l.foldl (fun crc c => (crc * 31 + c.toNat) % 2 ^ 32) b := by
  intro l
  induction l with
  | nil => intro a b _ _ hne; simpa using hne
  | cons x l ih =>
      intro a b ha hb hne
      simp only [List.foldl_cons]
      exact ih _ _ (Nat.mod_lt _ (by norm_num)) (Nat.mod_lt _ (by norm_num))
        (fun h => hne (crc_step_inj x.toNat a b ha hb h))

theorem crc_single_byte_change (l : List Char) (i : Nat) (c : Char)
    (hi : i < l.length) (hneq : c ≠ l.get ⟨i, hi⟩) :
    CalculateCRC (l.set i c) ≠ CalculateCRC l := by
  have hset : l.set i c = l.take i ++ c :: l.drop (i + 1) :=
    List.set_eq_take_cons_drop c hi
  have hl2 : l.take i ++ l.get ⟨i, hi⟩ :: l.drop (i + 1) = l := by
    conv_rhs => rw [← List.take_append_drop i l]
    rw [List.drop_eq_getElem_cons hi]
    rfl
  rw [hset]
  conv_rhs => rw [← hl2]
  simp only [CalculateCRC, List.foldl_append, List.foldl_cons]
  apply crcFold_ne _ _ _ (Nat.mod_lt _ (by norm_num)) (Nat.mod_lt _ (by norm_num))
  intro h
  exact hneq (char_toNat_injective
    (crc_byte_inj _ _ _ c.val.toNat_lt (l.get ⟨i, hi⟩).val.toNat_lt h))

theorem loadCounter_encodeRecord (n : Nat) (hn : (n : Int) ≤ int64Max)
    (ts ver : String) (hts : ts.data.all cleanChar = true)
    (hver : ver.data.all cleanChar = true) :
    LoadCounter (loadEnvOf (encodeRecord (n : Int) ts ver).2) =
      .ok (NewCounter (n : Int)) := by
  set d0 : CounterData :=
    { visits := (n : Int), timestamp := ts, version := ver, crc := 0 } with hd0
  set c : Nat := CalculateCRC (marshalCounterData d0) with hc
  set dc : CounterData :=
    { visits := (n : Int), timestamp := ts, version := ver, crc := c } with hdc
  have hlt : c < 2 ^ 32 := CalculateCRC_lt _
  have hbytes : (encodeRecord (n : Int) ts ver).2 = marshalCounterData dc := rfl
  have hum : unmarshal (encodeRecord (n : Int) ts ver).2 = some dc := by
    rw [hbytes, hdc]
    exact unmarshal_marshal n hn ts ver hts hver c hlt
  have hne : ((encodeRecord (n : Int) ts ver).2).isEmpty = false := rfl
  have hcopy : ({ dc with crc := 0 } : CounterData) = d0 := rfl
  rcases Nat.eq_zero_or_pos c with h0 | hpos
  · simp [LoadCounter, loadEnvOf, hne, hum, hdc, h0, NewCounter]
  · have hccc : CalculateCRC (marshalCounterData
        { visits := (n : Int), timestamp := ts, version := ver, crc := 0 }) = c := hc.symm
    simp only [LoadCounter, loadEnvOf, hne, hum, Bool.false_eq_true, if_false,
      Bool.not_false, if_true, List.isEmpty_eq_true]
    simp [hccc, hpos]

/-- C2 amended: starting from no file, LoadCounter yields the zero counter;
after N increments (N within the int64 range) and a Service.Persist that
reports success, loading the written file yields a counter with visits = N.
Outside the int64 range the counter wraps (see the counterexample). -/
theorem load_after_persist_roundtrip (N : Nat) (hN : (N : Int) ≤ int64Max)
    (retry : Nat) (envs : Nat → WriteEnv)
    (hok : (Service.Persist { counter := incrementN (NewCounter 0) N, disk := none }
      tsFix retry envs).1 = true)
    (content : List Char)
    (hdisk : ((Service.Persist { counter := incrementN (NewCounter 0) N, disk := none }
      tsFix retry envs).2.1).disk = some content) :
    LoadCounter loadEnvMissing = .ok (NewCounter 0) ∧
    LoadCounter (loadEnvOf content) = .ok (NewCounter (N : Int)) := by
  refine ⟨by simp [LoadCounter, loadEnvMissing], ?_⟩
  by_cases hdt : (incrementN (NewCounter 0) N).IsDirty = true
  · have hif : (({ counter := incrementN (NewCounter 0) N, disk := none } :
        ServiceState).counter.IsDirty = false) = False := by
      simp [hdt]
    simp only [Service.Persist, hif, if_false] at hok hdisk
    have hval : (incrementN (NewCounter 0) N).GetValue = (N : Int) := by
      have h1 : (incrementN (NewCounter 0) N).visits =
          wrap64 ((NewCounter 0).visits + N) := incrementN_visits _ _ (by decide)
      have h2 : (NewCounter 0).visits = 0 := rfl
      rw [h2] at h1
      have h3 : ((0 : Int) + N) = (N : Int) := by ring
      rw [h3] at h1
      rw [show (incrementN (NewCounter 0) N).GetValue =
        (incrementN (NewCounter 0) N).visits from rfl, h1]
      exact wrap64_eq_self (le_trans (by decide) (Int.natCast_nonneg N)) hN
    have hdisk2 : (SaveCounter (incrementN (NewCounter 0) N) tsFix retry envs none).disk =
        some ((encodeRecord ((incrementN (NewCounter 0) N).GetValue) tsFix Version).2) := by
      show (saveAttemptLoop (encodeRecord ((incrementN (NewCounter 0) N).GetValue)
        tsFix Version).2 envs (incrementN (NewCounter 0) N) none 0 retry).disk = _
      rw [saveAttemptLoop_disk]
      have hok2 : (saveAttemptLoop (encodeRecord ((incrementN (NewCounter 0) N).GetValue)
          tsFix Version).2 envs (incrementN (NewCounter 0) N) none 0 retry).ok = true := hok
      rw [hok2]
      simp
    rw [hdisk2] at hdisk
    simp only [Option.some.injEq] at hdisk
    subst hdisk
    rw [hval]
    exact loadCounter_encodeRecord N hN tsFix Version (by decide) (by decide)
  · have hdf : (incrementN (NewCounter 0) N).IsDirty = false := by
      cases h : (incrementN (NewCounter 0) N).IsDirty
      · rfl
      · exact absurd h hdt
    rw [persist_noop_of_clean { counter := incrementN (NewCounter 0) N, disk := none }
      tsFix retry envs hdf] at hdisk
    simp at hdisk

/-! ## C2 — end-to-end round trip -/

set_option maxRecDepth 1000000 in
/-- C2 witness: the spec scenario — no file, five increments, a successful
persist, and a reload that returns visits = 5. -/
theorem load_after_persist_roundtrip_witness :
    LoadCounter (loadEnvOf validContent) = .ok (NewCounter ((5 : Nat) : Int)) :=
  (load_after_persist_roundtrip 5 (by decide) 1 envsAllOk (by decide)
    validContent (by decide)).2

set_option maxRecDepth 1000000 in
/-- C2 counterexample: the claim quantifies over every N, but the counter is a
wrapping int64 — after 2^64 increments from zero the value is 0 again, the
successful persist writes a record with visits = 0, and the subsequent load
returns 0, not N = 2^64. -/
theorem roundtrip_claim_overflow_counterexample :
    (Service.Persist { counter := incrementN (NewCounter 0) (2 ^ 64), disk := none }
      tsFix 1 envsAllOk).1 = true ∧
    ((Service.Persist { counter := incrementN (NewCounter 0) (2 ^ 64), disk := none }
      tsFix 1 envsAllOk).2.1).disk = some validContent0 ∧
    LoadCounter (loadEnvOf validContent0) = .ok (NewCounter 0) ∧
    (Except.ok (NewCounter 0) : Except Unit Counter) ≠
      .ok (NewCounter ((2 ^ 64 : Nat) : Int)) := by
  have hvis : (incrementN (NewCounter 0) (2 ^ 64)).GetValue = 0 := by
    have h1 := incrementN_visits (NewCounter 0) (2 ^ 64) (by decide)
    rw [Counter.GetValue_eq, h1]
    decide
  have hdirty : ((incrementN (NewCounter 0) (2 ^ 64)).IsDirty = false) = False := by
    rw [Counter.IsDirty_eq, incrementN_dirty]
    have hz : (2 : Nat) ^ 64 ≠ 0 := by positivity
    simp [hz, NewCounter]
  refine ⟨?_, ?_, by decide, by decide⟩
  · simp only [Service.Persist, hdirty, if_false]
    rfl
  · simp only [Service.Persist, hdirty, if_false]
    show (saveAttemptLoop
      (encodeRecord ((incrementN (NewCounter 0) (2 ^ 64)).GetValue) tsFix Version).2
      envsAllOk (incrementN (NewCounter 0) (2 ^ 64)) none 0 1).disk = some validContent0
    rw [hvis]
    rfl

/-! ## C4 — single-byte corruption of an encoded record -/

set_option maxRecDepth 1000000 in
/-- C4 counterexample: `validContent` is a successfully encoded record for
visits = 5; replacing its single byte at index 1 (the newline after the brace)
with a space still decodes — the whitespace change is invisible to the parsed
content, the canonical re-serialization and hence the checksum are unchanged,
and the load returns the full record (visits = 5) instead of reporting it
absent. -/
theorem decode_whitespace_corruption_counterexample :
    corruptedContent ≠ validContent ∧
    LoadCounter (loadEnvOf validContent) = .ok (NewCounter 5) ∧
    LoadCounter (loadEnvOf corruptedContent) = .ok (NewCounter 5) :=
  ⟨by decide, by decide, by decide⟩

/-- C4 amended: decode is total (never crashes) and detects every corruption
of the checksummed content: changing any single byte of any checksummed byte
sequence always changes `CalculateCRC` (so a parsed record whose canonical
re-serialization differs from the original in one byte fails revalidation),
and any decoded record whose recomputed checksum mismatches its stored
non-zero crc makes the load fall back to the zero counter; only a corruption
that leaves the parsed content identical (insignificant whitespace) is
accepted, and it reproduces the original record exactly. -/
theorem crc_detects_content_corruption
    (l : List Char) (i : Nat) (c : Char) (hi : i < l.length)
    (hneq : c ≠ l.get ⟨i, hi⟩)
    (content : List Char) (d : CounterData)
    (hum : unmarshal content = some d) (hcrc : 0 < d.crc)
    (hmm : CalculateCRC (marshalCounterData { d with crc := 0 }) ≠ d.crc) :
    CalculateCRC (l.set i c) ≠ CalculateCRC l ∧
    LoadCounter (loadEnvOf content) = .ok (NewCounter 0) := by
  refine ⟨crc_single_byte_change l i c hi hneq, ?_⟩
  have hne : content.isEmpty = false := by
    cases content with
    | nil => simp [unmarshal, skipWs] at hum
    | cons a l2 => rfl
  simp [LoadCounter, loadEnvOf, hne, hum, hcrc, hmm]

set_option maxRecDepth 1000000 in
/-- C4 witness: a two-byte list with its first byte changed has a different
checksum, and a concrete record whose stored crc (99999) mismatches its
content loads as zero. -/
theorem crc_detects_content_corruption_witness :
    CalculateCRC (['a', 'b'].set 0 'c') ≠ CalculateCRC ['a', 'b'] ∧
    LoadCounter (loadEnvOf mismatchContent2) = .ok (NewCounter 0) :=
  crc_detects_content_corruption ['a', 'b'] 0 'c' (by decide) (by decide)
    mismatchContent2
    { visits := 7, timestamp := tsFix, version := Version, crc := 99999 }
    (by decide) (by decide) (by decide)

end CounterService
